import Mathlib

/-!
# Verification of the `@withvlibe/storage-sdk` client core

A shallow embedding of the request-orchestration core of `src/VlibeStorage.ts`:
the success/error envelope transport, the cached storage-config resolver and
public-URL construction, the `get`/`delete` not-found sentinel convention, the
batched `deleteMany`, and the presigned upload-with-progress flow.

Effectful TypeScript methods are embedded as pure functions over explicit
inputs: each remote interaction becomes an explicit argument carrying its
outcome (a network-level failure, or an HTTP status plus parsed envelope), and
methods that mutate instance state take the state and return the new state.
Where the order of effects matters (upload confirmation, delete batching) the
embedding additionally produces the list of effect events in the order the
code issues them.
-/

namespace VlibeStorage

/-- `StorageConfig` from `types.ts`: `{provider, publicUrlBase}`. -/
structure StorageConfig where
  provider : String
  publicUrlBase : String
deriving Repr, DecidableEq

/-- `ApiResponse<T>` from `types.ts`: the uniform envelope
`{success: boolean, data?: T, error?: string, message?: string}`.
Optional fields become `Option`. -/
structure ApiResponse (α : Type) where
  success : Bool
  data : Option α
  error : Option String
  message : Option String
deriving Repr, DecidableEq

/-- `StorageFile` from `types.ts`. -/
structure StorageFile where
  id : String
  key : String
  filename : String
  size : Nat
  mimeType : String
  isPublic : Bool
  folder : Option String
  url : Option String
  createdAt : String
deriving Repr, DecidableEq

/-- `PresignedUpload` from `types.ts`: `{uploadUrl, key, expiresIn}`. -/
structure PresignedUpload where
  uploadUrl : String
  key : String
  expiresIn : Nat
deriving Repr, DecidableEq

/-- `UploadResult` from `types.ts`. -/
structure UploadResult where
  id : String
  key : String
  filename : String
  size : Nat
  mimeType : String
  url : String
  isPublic : Bool
deriving Repr, DecidableEq

/-- JavaScript `s.includes(pat)`: `pat` occurs as a contiguous substring of
`s` (always true for the empty pattern). -/
def strIncludes (s pat : String) : Bool :=
  decide (pat.data <:+: s.data)

/-- JavaScript truthiness test `!x` on an optional string field: an absent
field and the empty string are both falsy. -/
def strFalsy : Option String → Bool
  | none => true
  | some s => s.isEmpty

/-- JavaScript `response.error || fallback`: the error text when it is truthy
(present and non-empty), the fallback message otherwise. -/
def errText (e : Option String) (fallback : String) : String :=
  match e with
  | some s => if s.isEmpty then fallback else s
  | none => fallback

/-- JavaScript `response.error?.includes('not found')` coerced to boolean:
`false` when `error` is absent. -/
def errNotFound (e : Option String) : Bool :=
  match e with
  | some s => strIncludes s "not found"
  | none => false

/-- `Response.ok` of the fetch API: status in the inclusive-exclusive range
[200, 300). -/
def httpOk (status : Nat) : Bool :=
  200 ≤ status && status < 300

/-- The private `request` method (`VlibeStorage.ts` lines 105-119), embedded
as a function of the HTTP response it receives: the numeric status, the
status text and the parsed body.  If the response is not ok and the body's
`error` field is JS-falsy (`!response.ok && !data.error`), it synthesizes
`{success:false, error:"HTTP <status>: <statusText>"}`; otherwise it returns
the parsed body unchanged.  It never throws based on the envelope. -/
def request (status : Nat) (statusText : String) (body : ApiResponse α) :
    ApiResponse α :=
  if !httpOk status && strFalsy body.error then
    { success := false
      data := none
      error := some ("HTTP " ++ toString status ++ ": " ++ statusText)
      message := none }
  else
    body

/-- The hardcoded legacy Wasabi fallback descriptor returned by
`getStorageConfig` when no server config is obtainable
(`VlibeStorage.ts` lines 72-77). -/
def legacyConfig : StorageConfig :=
  { provider := "wasabi"
    publicUrlBase := "https://s3.eu-central-2.wasabisys.com/vlibe.com" }

/-- `getStorageConfig` (`VlibeStorage.ts` lines 56-77), embedded as a
function of the cache state (`this.storageConfig`) and of the outcome of the
one fetch it would perform (`Except.error` for a thrown network/transport
error, `Except.ok` for a received envelope).  Returns the produced
`StorageConfig` together with the new cache state.  With a cached config the
fetch outcome is ignored (the method returns before any request). -/
def getStorageConfig (cached : Option StorageConfig)
    (fetched : Except String (ApiResponse StorageConfig)) :
    StorageConfig × Option StorageConfig :=
  match cached with
  | some c => (c, some c)
  | none =>
    match fetched with
    | .ok resp =>
      match resp.success, resp.data with
      | true, some d => (d, some d)
      | true, none => (legacyConfig, none)
      | false, _ => (legacyConfig, none)
    | .error _ => (legacyConfig, none)

/-- `clearStorageConfigCache` (`VlibeStorage.ts` lines 82-84): resets the
cache state to `null`. -/
def clearStorageConfigCache (_cached : Option StorageConfig) :
    Option StorageConfig :=
  none

/-- JavaScript `s.replace(/\/$/, '')`: remove one trailing slash when
present. -/
def stripTrailingSlash (s : String) : String :=
  if s.data.getLast? = some '/' then String.mk s.data.dropLast else s

/-- `getPublicUrl` (`VlibeStorage.ts` lines 286-297), a synchronous function
of the cache state and the key: with a cached config, the base (one trailing
slash stripped) joined with `/` and the key; otherwise the hardcoded legacy
Wasabi URL. -/
def getPublicUrl (cached : Option StorageConfig) (key : String) : String :=
  match cached with
  | some c => stripTrailingSlash c.publicUrlBase ++ "/" ++ key
  | none => "https://s3." ++ "eu-central-2" ++ ".wasabisys.com/" ++ "vlibe.com" ++ "/" ++ key

/-- `get` (`VlibeStorage.ts` lines 349-360), embedded as a function of the
envelope the transport returns.  `Except.error m` embeds
`throw new Error(m)`; `Except.ok` embeds a normal return, with `none` for
`null`.  On a failed envelope whose error text contains `"not found"` it
returns `null`; on any other failed envelope it throws
`response.error || 'Failed to get file'`; on a successful envelope it
returns `response.data || null`. -/
def get (resp : ApiResponse StorageFile) : Except String (Option StorageFile) :=
  if resp.success then
    .ok resp.data
  else if errNotFound resp.error then
    .ok none
  else
    .error (errText resp.error "Failed to get file")

/-- `delete` (`VlibeStorage.ts` lines 365-378), embedded like `get`: on a
failed envelope whose error text contains `"not found"` it returns `false`;
on any other failed envelope it throws
`response.error || 'Failed to delete file'`; otherwise it returns `true`. -/
def delete (resp : ApiResponse Unit) : Except String Bool :=
  if resp.success then
    .ok true
  else if errNotFound resp.error then
    .ok false
  else
    .error (errText resp.error "Failed to delete file")

/-! ## Supporting lemmas -/

theorem strIncludes_empty (s : String) : strIncludes s "" = true := by
  simp [strIncludes]

theorem strIncludes_refl (s : String) : strIncludes s s = true := by
  simp [strIncludes]

theorem stripTrailingSlash_concat (s : String) :
    stripTrailingSlash (s ++ "/") = s := by
  have hdata : (s ++ "/").data = s.data ++ ['/'] := String.data_append s "/"
  simp [stripTrailingSlash, hdata]

theorem stripTrailingSlash_of_not_slash (s : String)
    (h : s.data.getLast? ≠ some '/') : stripTrailingSlash s = s := by
  simp [stripTrailingSlash, h]

/-! ## Claim theorems: transport, config, URL resolution, sentinel errors -/

/-- C5: `getPublicUrl` is a pure function of the cached config state and the
key (it touches no transport input at all).  With a cached config it returns
the cached `publicUrlBase` with one trailing slash stripped, joined with `/`
and the key; with no cached config it returns the legacy
`https://s3.eu-central-2.wasabisys.com/vlibe.com/<key>` form; the spec's
example with base `"https://cdn.example/x/"` evaluates as stated. -/
theorem getPublicUrl_pure_cases (p base key : String)
    (h : base.data.getLast? ≠ some '/') :
    getPublicUrl none key =
      "https://s3.eu-central-2.wasabisys.com/vlibe.com/" ++ key ∧
    getPublicUrl (some ⟨p, base⟩) key = base ++ "/" ++ key ∧
    getPublicUrl (some ⟨p, base ++ "/"⟩) key = base ++ "/" ++ key ∧
    getPublicUrl (some ⟨p, "https://cdn.example/x/"⟩) "a/b" =
      "https://cdn.example/x/a/b" := by
  refine ⟨rfl, ?_, ?_, ?_⟩
  · simp [getPublicUrl, stripTrailingSlash_of_not_slash base h]
  · simp [getPublicUrl, stripTrailingSlash_concat base]
  · show stripTrailingSlash "https://cdn.example/x/" ++ "/" ++ "a/b" = _
    decide

/-- Witness for C5 at the spec's concrete example. -/
theorem getPublicUrl_pure_cases_witness :
    getPublicUrl (some ⟨"r2", "https://cdn.example/x"⟩) "a/b" =
      "https://cdn.example/x" ++ "/" ++ "a/b" :=
  (getPublicUrl_pure_cases "r2" "https://cdn.example/x" "a/b" (by decide)).2.1

/-- C6: `getStorageConfig` as a two-state cache protocol.  Unresolved state:
a successful envelope carrying data returns that config and caches it; a
failed envelope, an envelope without data, or a thrown fetch error returns
the legacy fallback and leaves the cache unresolved (so a later call
fetches again).  Resolved state: the cached config is returned and the
fetch outcome is irrelevant (no network dependence).
`clearStorageConfigCache` resets to unresolved. -/
theorem getStorageConfig_cache_protocol (c d : StorageConfig)
    (resp : ApiResponse StorageConfig)
    (f f1 f2 : Except String (ApiResponse StorageConfig)) (e : String) :
    (resp.success = true → resp.data = some d →
      getStorageConfig none (.ok resp) = (d, some d)) ∧
    (resp.success = false →
      getStorageConfig none (.ok resp) = (legacyConfig, none)) ∧
    (resp.data = none →
      getStorageConfig none (.ok resp) = (legacyConfig, none)) ∧
    getStorageConfig none (.error e) = (legacyConfig, none) ∧
    getStorageConfig (some c) f = (c, some c) ∧
    getStorageConfig (some c) f1 = getStorageConfig (some c) f2 ∧
    clearStorageConfigCache (some c) = none ∧
    clearStorageConfigCache none = none := by
  refine ⟨?_, ?_, ?_, rfl, rfl, rfl, rfl, rfl⟩
  · intro hs hd
    simp [getStorageConfig, hs, hd]
  · intro hs
    simp [getStorageConfig, hs]
  · intro hd
    cases hs : resp.success <;> simp [getStorageConfig, hs, hd]

/-- Witness for C6: a successful fetch of a concrete config transitions the
unresolved cache to resolved on that config. -/
theorem getStorageConfig_cache_protocol_witness :
    getStorageConfig none
        (.ok ⟨true, some ⟨"r2", "https://cdn.example/x"⟩, none, none⟩) =
      (⟨"r2", "https://cdn.example/x"⟩, some ⟨"r2", "https://cdn.example/x"⟩) :=
  (getStorageConfig_cache_protocol legacyConfig ⟨"r2", "https://cdn.example/x"⟩
      ⟨true, some ⟨"r2", "https://cdn.example/x"⟩, none, none⟩
      (.error "") (.error "") (.error "") "").1 rfl rfl

/-- C7: on a failed envelope `{success:false, error:e}`, `get` returns
`null` exactly when `e` contains the substring `"not found"`, and `delete`
returns `false` exactly then; for any other error text both throw, and the
thrown message contains the server's error text. -/
theorem notFound_sentinel_convention (e : String) (d : Option StorageFile) :
    (get ⟨false, d, some e, none⟩ = .ok none ↔
      strIncludes e "not found" = true) ∧
    (delete ⟨false, none, some e, none⟩ = .ok false ↔
      strIncludes e "not found" = true) ∧
    (strIncludes e "not found" = false →
      ∃ m, get ⟨false, d, some e, none⟩ = .error m ∧ strIncludes m e = true) ∧
    (strIncludes e "not found" = false →
      ∃ m, delete ⟨false, none, some e, none⟩ = .error m ∧
        strIncludes m e = true) := by
  cases hnf : strIncludes e "not found" <;>
    cases hemp : e.isEmpty <;>
      simp_all [get, delete, errNotFound, errText, strIncludes_refl,
        strIncludes_empty, String.isEmpty_iff]

/-- Witness for C7 at the spec's concrete examples: `"file not found"`
yields the sentinels, `"forbidden"` throws carrying the text. -/
theorem notFound_sentinel_convention_witness :
    (get ⟨false, none, some "file not found", none⟩ = .ok none ↔
      strIncludes "file not found" "not found" = true) ∧
    (strIncludes "forbidden" "not found" = false →
      ∃ m, get ⟨false, none, some "forbidden", none⟩ = .error m ∧
        strIncludes m "forbidden" = true) :=
  ⟨(notFound_sentinel_convention "file not found" none).1,
    (notFound_sentinel_convention "forbidden" none).2.2.1⟩

/-- C8 counterexample: a non-2xx response whose parsed body carries an
explicit `error` field with value `""` is NOT passed through unchanged —
JavaScript `!data.error` treats the empty string as absent, so the transport
replaces the body with the synthesized envelope. -/
theorem request_passthrough_counterexample :
    (⟨true, none, some "", none⟩ : ApiResponse StorageConfig).error ≠ none ∧
    httpOk 404 = false ∧
    request 404 "Not Found"
        (⟨true, none, some "", none⟩ : ApiResponse StorageConfig) =
      ⟨false, none, some "HTTP 404: Not Found", none⟩ ∧
    request 404 "Not Found"
        (⟨true, none, some "", none⟩ : ApiResponse StorageConfig) ≠
      (⟨true, none, some "", none⟩ : ApiResponse StorageConfig) := by
  refine ⟨by simp, rfl, by decide, by decide⟩

/-- C8 amended: the transport returns the parsed body unchanged unless the
status is non-2xx and the body's `error` field is absent **or empty** (the
JS-falsy cases), in which case it returns exactly
`{success:false, error:"HTTP <status>: <statusText>"}`; a non-2xx response
with a non-empty `error` field is passed through as-is, and the transport
never throws an envelope failure itself (it is a total function into
envelopes). -/
theorem request_passthrough_spec {α : Type} (status : Nat)
    (statusText : String) (body : ApiResponse α) :
    (httpOk status = true → request status statusText body = body) ∧
    (∀ e, body.error = some e → e ≠ "" → request status statusText body = body) ∧
    (httpOk status = false → strFalsy body.error = true →
      request status statusText body =
        ⟨false, none, some ("HTTP " ++ toString status ++ ": " ++ statusText),
          none⟩) := by
  refine ⟨?_, ?_, ?_⟩
  · intro hok
    simp [request, hok]
  · intro e he hne
    have hie : e.isEmpty = false := by
      cases hki : e.isEmpty with
      | false => rfl
      | true => exact absurd ((String.isEmpty_iff e).mp hki) hne
    have : strFalsy body.error = false := by simp [strFalsy, he, hie]
    simp [request, this]
  · intro hok hf
    simp [request, hok, hf]

/-- Witness for C8 (amended) at a concrete non-2xx response with a
non-empty error field: passed through as-is. -/
theorem request_passthrough_spec_witness :
    request 403 "Forbidden"
        (⟨false, none, some "forbidden", none⟩ : ApiResponse StorageConfig) =
      ⟨false, none, some "forbidden", none⟩ :=
  (request_passthrough_spec 403 "Forbidden"
      (⟨false, none, some "forbidden", none⟩ : ApiResponse StorageConfig)).2.1
    "forbidden" rfl (by decide)

/-- C10: on a successful envelope `get` never throws; it returns the data
field as-is, and in particular returns `null` when `data` is absent. -/
theorem get_success_never_throws (resp : ApiResponse StorageFile)
    (h : resp.success = true) :
    get resp = .ok resp.data ∧
    (resp.data = none → get resp = .ok none) ∧
    ∀ m, get resp ≠ .error m := by
  refine ⟨by simp [get, h], ?_, ?_⟩
  · intro hd
    simp [get, h, hd]
  · intro m
    simp [get, h]

/-- Witness for C10: a successful envelope with no data yields `null`. -/
theorem get_success_never_throws_witness :
    get ⟨true, none, none, none⟩ = .ok none :=
  (get_success_never_throws ⟨true, none, none, none⟩ rfl).2.1 rfl

/-! ## Batched delete (`deleteMany`, `VlibeStorage.ts` lines 383-406)

The loop `for (let i = 0; i < fileIds.length; i += batchSize)` with
`fileIds.slice(i, i + batchSize)` and `batchSize = 10` partitions the id
list into consecutive chunks of ten; `chunksOf10` computes that partition.
The settled outcome of each `this.delete(id)` promise is an explicit
function argument `out`: `Except.ok b` for a promise fulfilled with `b`,
`Except.error e` for a rejected promise. -/

/-- The consecutive batches `fileIds.slice(i, i + 10)` taken by the
`deleteMany` loop, in loop order. -/
def chunksOf10 : List α → List (List α)
  | [] => []
  | x :: xs => (x :: List.take 9 xs) :: chunksOf10 (List.drop 9 xs)
termination_by l => l.length
decreasing_by simp; omega

/-- One iteration of the `results.forEach` classification in `deleteMany`:
a fulfilled `true` outcome pushes the id onto `deleted`, anything else
(fulfilled `false` or rejected) pushes it onto `failed`. -/
def classifyStep (out : String → Except String Bool)
    (acc : List String × List String) (id : String) :
    List String × List String :=
  match out id with
  | .ok true => (acc.1 ++ [id], acc.2)
  | .ok false => (acc.1, acc.2 ++ [id])
  | .error _ => (acc.1, acc.2 ++ [id])

/-- `deleteMany` (`VlibeStorage.ts` lines 383-406): classify every id of
every batch, in batch order and in id order within each batch, into the
`deleted`/`failed` accumulator pair. -/
def deleteMany (out : String → Except String Bool) (ids : List String) :
    List String × List String :=
  (chunksOf10 ids).foldl (fun acc batch => batch.foldl (classifyStep out) acc)
    ([], [])

/-- `result.status === 'fulfilled' && result.value` as a boolean of the
settled outcome. -/
def deleteOk (out : String → Except String Bool) (id : String) : Bool :=
  match out id with
  | .ok true => true
  | .ok false => false
  | .error _ => false

/-! ### Effect trace of the `deleteMany` loop

Each loop iteration issues `batch.map((id) => this.delete(id))` — one
`dispatch` event per id of the batch, in order — and then
`await Promise.allSettled(...)`, which returns only once every promise of
the batch has settled — one `settled` event per id of the batch — before
the next iteration begins.  `traceFrom k l` is the event list the loop
emits for the remaining ids `l` starting at batch index `k`. -/

/-- A delete promise of batch `batch` being dispatched, or having
settled. -/
inductive DelPhase where
  | dispatch
  | settled
deriving DecidableEq, Repr

/-- One observable event of the `deleteMany` loop. -/
structure DelEv where
  batch : Nat
  phase : DelPhase
  id : String
deriving DecidableEq, Repr

/-- Temporal rank of an event: all dispatches of batch `k` come at rank
`2k`, all settlements of batch `k` at rank `2k + 1`. -/
def delRank (e : DelEv) : Nat :=
  2 * e.batch + (match e.phase with | .dispatch => 0 | .settled => 1)

/-- The events of the `deleteMany` loop over the remaining ids, starting at
batch index `k`: dispatch the whole batch, then settle the whole batch,
then recurse. -/
def traceFrom (k : Nat) : List String → List DelEv
  | [] => []
  | x :: xs =>
    (x :: List.take 9 xs).map (fun id => ⟨k, .dispatch, id⟩) ++
      ((x :: List.take 9 xs).map (fun id => ⟨k, .settled, id⟩) ++
        traceFrom (k + 1) (List.drop 9 xs))
termination_by l => l.length
decreasing_by simp; omega

/-- The full effect trace of `deleteMany` on an id list. -/
def deleteManyTrace (ids : List String) : List DelEv :=
  traceFrom 0 ids

/-! ### Lemmas about batching -/

theorem chunksOf10_flatten (l : List α) : (chunksOf10 l).flatten = l := by
  induction l using chunksOf10.induct with
  | case1 => simp [chunksOf10]
  | case2 x xs ih => simp [chunksOf10, ih]

theorem chunksOf10_length (l : List α) :
    (chunksOf10 l).length = (l.length + 9) / 10 := by
  induction l using chunksOf10.induct with
  | case1 => simp [chunksOf10]
  | case2 x xs ih =>
    simp only [chunksOf10, List.length_cons, ih, List.length_drop]
    omega

theorem chunksOf10_sizes (l : List α) :
    ∀ b ∈ chunksOf10 l, 0 < b.length ∧ b.length ≤ 10 := by
  induction l using chunksOf10.induct with
  | case1 => simp [chunksOf10]
  | case2 x xs ih =>
    intro b hb
    rcases (by simpa [chunksOf10] using hb :
        b = x :: List.take 9 xs ∨ b ∈ chunksOf10 (List.drop 9 xs)) with hb1 | hb2
    · subst hb1
      simp only [List.length_cons, List.length_take]
      omega
    · exact ih b hb2

theorem foldl_classifyStep (out : String → Except String Bool) :
    ∀ (l : List String) (d f : List String),
      l.foldl (classifyStep out) (d, f) =
        (d ++ l.filter (deleteOk out),
          f ++ l.filter (fun id => !deleteOk out id))
  | [], d, f => by simp
  | x :: xs, d, f => by
    rcases hx : out x with e | b
    · have : classifyStep out (d, f) x = (d, f ++ [x]) := by
        simp [classifyStep, hx]
      simp only [List.foldl_cons, this, foldl_classifyStep out xs,
        List.filter_cons, deleteOk, hx]
      simp
    · cases b
      · have : classifyStep out (d, f) x = (d, f ++ [x]) := by
          simp [classifyStep, hx]
        simp only [List.foldl_cons, this, foldl_classifyStep out xs,
          List.filter_cons, deleteOk, hx]
        simp
      · have : classifyStep out (d, f) x = (d ++ [x], f) := by
          simp [classifyStep, hx]
        simp only [List.foldl_cons, this, foldl_classifyStep out xs,
          List.filter_cons, deleteOk, hx]
        simp

theorem deleteMany_eq_filter (out : String → Except String Bool)
    (ids : List String) :
    deleteMany out ids =
      (ids.filter (deleteOk out), ids.filter (fun id => !deleteOk out id)) := by
  have h1 : deleteMany out ids =
      (chunksOf10 ids).flatten.foldl (classifyStep out) ([], []) := by
    rw [deleteMany, List.foldl_flatten]
  rw [h1, chunksOf10_flatten, foldl_classifyStep]
  simp

theorem deleteOk_iff (out : String → Except String Bool) (id : String) :
    deleteOk out id = true ↔ out id = .ok true := by
  rcases h : out id with e | b
  · simp [deleteOk, h]
  · cases b <;> simp [deleteOk, h]

theorem listPairwiseTotal {α : Type} {R : α → α → Prop} (h : ∀ a b, R a b) :
    ∀ l : List α, l.Pairwise R
  | [] => List.Pairwise.nil
  | x :: xs => List.Pairwise.cons (fun y _ => h x y) (listPairwiseTotal h xs)

theorem traceFrom_rank_ge (k : Nat) (l : List String) :
    ∀ e ∈ traceFrom k l, 2 * k ≤ delRank e := by
  induction k, l using traceFrom.induct with
  | case1 k => simp [traceFrom]
  | case2 k x xs ih =>
    intro e he
    rw [traceFrom] at he
    rcases List.mem_append.1 he with h1 | h23
    · obtain ⟨id, _, rfl⟩ := List.mem_map.1 h1
      simp [delRank]
    · rcases List.mem_append.1 h23 with h2 | h3
      · obtain ⟨id, _, rfl⟩ := List.mem_map.1 h2
        simp [delRank]
      · have := ih e h3
        omega

theorem traceFrom_pairwise (k : Nat) (l : List String) :
    (traceFrom k l).Pairwise (fun a b => delRank a ≤ delRank b) := by
  induction k, l using traceFrom.induct with
  | case1 k => simp [traceFrom]
  | case2 k x xs ih =>
    rw [traceFrom]
    rw [List.pairwise_append]
    refine ⟨?_, ?_, ?_⟩
    · exact List.pairwise_map.2 (listPairwiseTotal (fun a b => by simp [delRank]) _)
    · rw [List.pairwise_append]
      refine ⟨List.pairwise_map.2 (listPairwiseTotal (fun a b => by simp [delRank]) _),
        ih, ?_⟩
      intro a ha b hb
      obtain ⟨id, _, rfl⟩ := List.mem_map.1 ha
      have hrb := traceFrom_rank_ge (k + 1) (List.drop 9 xs) b hb
      have hra : delRank (⟨k, .settled, id⟩ : DelEv) = 2 * k + 1 := by
        simp [delRank]
      omega
    · intro a ha b hb
      obtain ⟨id, _, rfl⟩ := List.mem_map.1 ha
      have hra : delRank (⟨k, .dispatch, id⟩ : DelEv) = 2 * k := by
        simp [delRank]
      rcases List.mem_append.1 hb with h2 | h3
      · obtain ⟨id2, _, rfl⟩ := List.mem_map.1 h2
        simp [delRank]
      · have hrb := traceFrom_rank_ge (k + 1) (List.drop 9 xs) b h3
        omega

theorem traceFrom_chunk_mem (k : Nat) (l : List String) :
    ∀ (i : Nat) (h : i < (chunksOf10 l).length) (id : String),
      id ∈ (chunksOf10 l).get ⟨i, h⟩ →
        (⟨k + i, .dispatch, id⟩ : DelEv) ∈ traceFrom k l ∧
        (⟨k + i, .settled, id⟩ : DelEv) ∈ traceFrom k l := by
  induction k, l using traceFrom.induct with
  | case1 k =>
    intro i h id
    simp [chunksOf10] at h
  | case2 k x xs ih =>
    intro i h id hmem
    match i with
    | 0 =>
      have hmem0 : id ∈ x :: List.take 9 xs := by
        simpa [chunksOf10] using hmem
      rw [traceFrom]
      constructor
      · exact List.mem_append_left _ (List.mem_map_of_mem _ hmem0)
      · exact List.mem_append_right _
          (List.mem_append_left _ (List.mem_map_of_mem _ hmem0))
    | Nat.succ j =>
      have hj : j < (chunksOf10 (List.drop 9 xs)).length := by
        have := h
        simp only [chunksOf10, List.length_cons] at this
        omega
      have hmemj : id ∈ (chunksOf10 (List.drop 9 xs)).get ⟨j, hj⟩ := by
        simpa [chunksOf10] using hmem
      have hrec := ih j hj id hmemj
      have hkj : k + (j + 1) = (k + 1) + j := by omega
      rw [traceFrom, hkj]
      exact ⟨List.mem_append_right _ (List.mem_append_right _ hrec.1),
        List.mem_append_right _ (List.mem_append_right _ hrec.2)⟩

/-! ### Claim theorems: deleteMany -/

/-- C3: for every id list and every assignment of per-id settled outcomes,
`deleteMany` returns `{deleted, failed}` with
`deleted.length + failed.length = N`, `deleted ++ failed` a permutation of
the input ids (same multiset), and each of the two lists a sublist of the
input — i.e. ids appear in original order; `deleteMany` is a total function
of the outcomes, so an individual rejected delete never makes it throw. -/
theorem deleteMany_totals (out : String → Except String Bool)
    (ids : List String) :
    (deleteMany out ids).1.length + (deleteMany out ids).2.length =
      ids.length ∧
    ((deleteMany out ids).1 ++ (deleteMany out ids).2).Perm ids ∧
    (deleteMany out ids).1.Sublist ids ∧
    (deleteMany out ids).2.Sublist ids := by
  rw [deleteMany_eq_filter]
  refine ⟨?_, List.filter_append_perm _ ids, List.filter_sublist ids,
    List.filter_sublist ids⟩
  have hlen := (List.filter_append_perm (deleteOk out) ids).length_eq
  simpa [List.length_append] using hlen

/-- C9: an id of the input appears in `deleted` exactly when its delete
promise fulfilled with `true`; it appears in `failed` exactly when the
promise fulfilled with `false` (the not-found sentinel) or rejected. -/
theorem deleteMany_member_classification (out : String → Except String Bool)
    (ids : List String) (id : String) (h : id ∈ ids) :
    (id ∈ (deleteMany out ids).1 ↔ out id = .ok true) ∧
    (id ∈ (deleteMany out ids).2 ↔ ¬out id = .ok true) := by
  rw [deleteMany_eq_filter]
  have hb := deleteOk_iff out id
  rcases hdo : deleteOk out id with _ | _ <;>
    simp_all [List.mem_filter, h]

/-- Witness for C9: a delete fulfilling with `false` lands the id in the
`failed` list. -/
theorem deleteMany_member_classification_witness :
    "a" ∈ (deleteMany (fun _ => (.ok false : Except String Bool)) ["a"]).2 :=
  ((deleteMany_member_classification (fun _ => (.ok false : Except String Bool))
      ["a"] "a" (by simp)).2).mpr (by simp)

/-- C4: the `deleteMany` loop partitions the ids into the consecutive
batches `chunksOf10 ids` (their concatenation is the input, every batch is
non-empty with at most 10 ids, and the batch count is `⌈N/10⌉`, so 25 ids
yield exactly 3 batches), and its effect trace is rank-monotone: all
dispatches of batch `k` (rank `2k`) occur before all settlements of batch
`k` (rank `2k+1`), which occur before any dispatch of batch `k+1`
(rank `2k+2`); every id of batch `i` has both its dispatch and its
settlement event in the trace with batch index `i`. -/
theorem deleteMany_batch_discipline (ids : List String) :
    (chunksOf10 ids).flatten = ids ∧
    (∀ b ∈ chunksOf10 ids, 0 < b.length ∧ b.length ≤ 10) ∧
    (chunksOf10 ids).length = (ids.length + 9) / 10 ∧
    (ids.length = 25 → (chunksOf10 ids).length = 3) ∧
    (deleteManyTrace ids).Pairwise (fun a b => delRank a ≤ delRank b) ∧
    (∀ (i : Nat) (h : i < (chunksOf10 ids).length) (id : String),
      id ∈ (chunksOf10 ids).get ⟨i, h⟩ →
        (⟨i, .dispatch, id⟩ : DelEv) ∈ deleteManyTrace ids ∧
        (⟨i, .settled, id⟩ : DelEv) ∈ deleteManyTrace ids) := by
  refine ⟨chunksOf10_flatten ids, chunksOf10_sizes ids, chunksOf10_length ids,
    ?_, traceFrom_pairwise 0 ids, ?_⟩
  · intro h25
    rw [chunksOf10_length, h25]
  · intro i h id hmem
    simpa using traceFrom_chunk_mem 0 ids i h id hmem

/-- Witness for C4: 25 ids yield exactly 3 batches. -/
theorem deleteMany_batch_discipline_witness :
    (chunksOf10 (List.replicate 25 "x")).length = 3 :=
  (deleteMany_batch_discipline (List.replicate 25 "x")).2.2.2.1 (by simp)

/-! ## Upload with progress (`uploadWithProgress`, `VlibeStorage.ts` 189-252)

The method performs three remote interactions in sequence: `getUploadUrl`
(a POST to `/storage/upload-url`), the binary PUT of the file bytes to the
presigned `uploadUrl` via `XMLHttpRequest`, and the confirmation request
(a PUT to `/storage/upload-url`).  Each interaction's outcome is an
explicit argument, and the embedding returns the list of interactions
actually issued, in issue order, together with the overall result
(`Except.error` embeds a rejected promise). -/

/-- The three remote interactions `uploadWithProgress` can issue. -/
inductive UpAction where
  | getUrl
  | putBinary
  | confirm
deriving DecidableEq, Repr

/-- Whether the binary PUT settled as a load event with a 2xx status
(`xhr.status >= 200 && xhr.status < 300`); a network-level `error` event is
`Except.error`. -/
def put2xx : Except String Nat → Bool
  | .ok status => httpOk status
  | .error _ => false

/-- `uploadWithProgress` (`VlibeStorage.ts` lines 189-252) as a function of
the three interaction outcomes: `presign` is the envelope (or thrown
transport error) of `getUploadUrl`; `put` is the settled binary PUT
(`Except.ok status` for a load event, `Except.error` for a network error);
`confirmResp` is the envelope (or thrown error) of the confirmation call.
Returns the interactions issued, in order, and the overall outcome. -/
def uploadWithProgress
    (presign : Except String (ApiResponse PresignedUpload))
    (put : Except String Nat)
    (confirmResp : Except String (ApiResponse UploadResult)) :
    List UpAction × Except String UploadResult :=
  match presign with
  | .error e => ([.getUrl], .error e)
  | .ok presp =>
    match presp.success, presp.data with
    | true, some _pu =>
      (match put with
      | .error _ => ([.getUrl, .putBinary], .error "Upload failed")
      | .ok status =>
        if httpOk status then
          match confirmResp with
          | .error e => ([.getUrl, .putBinary, .confirm], .error e)
          | .ok cresp =>
            match cresp.success, cresp.data with
            | true, some r => ([.getUrl, .putBinary, .confirm], .ok r)
            | true, none =>
              ([.getUrl, .putBinary, .confirm],
                .error (errText cresp.error "Failed to confirm upload"))
            | false, _ =>
              ([.getUrl, .putBinary, .confirm],
                .error (errText cresp.error "Failed to confirm upload"))
        else
          ([.getUrl, .putBinary],
            .error ("Upload failed with status " ++ toString status)))
    | true, none =>
      ([.getUrl], .error (errText presp.error "Failed to get upload URL"))
    | false, _ =>
      ([.getUrl], .error (errText presp.error "Failed to get upload URL"))

/-- C1: if the binary PUT does not complete with a 2xx status (non-2xx load
or network error), the confirmation request is never issued and
`uploadWithProgress` rejects; conversely, whenever the confirmation request
is issued, the binary PUT completed with a 2xx status and the confirmation
is the last of the three interactions, after the PUT. -/
theorem uploadWithProgress_confirm_after_put
    (presign : Except String (ApiResponse PresignedUpload))
    (put : Except String Nat)
    (confirmResp : Except String (ApiResponse UploadResult)) :
    (put2xx put = false →
      UpAction.confirm ∉ (uploadWithProgress presign put confirmResp).1 ∧
      ∃ e, (uploadWithProgress presign put confirmResp).2 = .error e) ∧
    (UpAction.confirm ∈ (uploadWithProgress presign put confirmResp).1 →
      ∃ status, put = .ok status ∧ httpOk status = true ∧
        (uploadWithProgress presign put confirmResp).1 =
          [.getUrl, .putBinary, .confirm]) := by
  rcases presign with e | ⟨ps, pd, pe, pm⟩
  · simp [uploadWithProgress, put2xx]
  · cases ps
    · simp [uploadWithProgress, put2xx]
    · rcases pd with _ | pu
      · simp [uploadWithProgress, put2xx]
      · rcases put with pe2 | status
        · simp [uploadWithProgress, put2xx]
        · by_cases hst : httpOk status
          · rcases confirmResp with ce | ⟨cs, cd, cce, cm⟩
            · simp [uploadWithProgress, put2xx, hst]
            · cases cs
              · simp [uploadWithProgress, put2xx, hst]
              · rcases cd with _ | r
                · simp [uploadWithProgress, put2xx, hst]
                · simp [uploadWithProgress, put2xx, hst]
          · simp [uploadWithProgress, put2xx, hst]

/-- Witness for C1: a 500 on the binary PUT means no confirmation and a
rejected operation. -/
theorem uploadWithProgress_confirm_after_put_witness :
    UpAction.confirm ∉
      (uploadWithProgress (.ok ⟨true, some ⟨"u", "k", 3600⟩, none, none⟩)
        (.ok 500) (.ok ⟨true, none, none, none⟩)).1 ∧
    ∃ e, (uploadWithProgress (.ok ⟨true, some ⟨"u", "k", 3600⟩, none, none⟩)
        (.ok 500) (.ok ⟨true, none, none, none⟩)).2 = .error e :=
  (uploadWithProgress_confirm_after_put
    (.ok ⟨true, some ⟨"u", "k", 3600⟩, none, none⟩) (.ok 500)
    (.ok ⟨true, none, none, none⟩)).1 (by decide)

/-! ## Progress reporting (`VlibeStorage.ts` lines 205-211)

The XHR progress handler runs on each progress event: when
`e.lengthComputable` it invokes the caller's callback with
`Math.round((e.loaded / e.total) * 100)`, otherwise it does nothing.
`progressPercent` computes that rounded percentage over exact arithmetic:
for positive `total`, `Math.round(x)` is `⌊x + 1/2⌋`, and
`⌊loaded/total*100 + 1/2⌋ = (200*loaded + total) / (2*total)` in natural
division (`progressPercent_eq_round` below proves the correspondence). -/

/-- One XHR progress event: `{lengthComputable, loaded, total}`. -/
structure ProgressEvent where
  lengthComputable : Bool
  loaded : Nat
  total : Nat
deriving Repr, DecidableEq

/-- `Math.round((loaded / total) * 100)` in exact natural arithmetic. -/
def progressPercent (loaded total : Nat) : Nat :=
  (200 * loaded + total) / (2 * total)

/-- The sequence of values passed to the caller's `onProgress` callback for
a sequence of XHR progress events: one call per event with a computable
length, none otherwise. -/
def progressCallbacks (evs : List ProgressEvent) : List Nat :=
  (evs.filter (fun e => e.lengthComputable)).map
    (fun e => progressPercent e.loaded e.total)

theorem progressPercent_eq_round (l t : Nat) (ht : 0 < t) :
    (progressPercent l t : ℤ) = round ((l : ℚ) / (t : ℚ) * 100) := by
  have ht' : (0 : ℚ) < t := by exact_mod_cast ht
  have hx : (l : ℚ) / t * 100 + 1 / 2 =
      ((200 * l + t : ℕ) : ℚ) / ((2 * t : ℕ) : ℚ) := by
    push_cast
    field_simp
    ring
  have h0 : (0 : ℚ) ≤ ((200 * l + t : ℕ) : ℚ) / ((2 * t : ℕ) : ℚ) := by
    positivity
  rw [round_eq, hx, ← Int.natCast_floor_eq_floor h0, Nat.floor_div_eq_div]
  rfl

theorem progressPercent_mono {l l' t : Nat} (h : l ≤ l') :
    progressPercent l t ≤ progressPercent l' t :=
  Nat.div_le_div_right (by omega)

theorem progressPercent_eq_100_iff {l t : Nat} (ht : 0 < t) (hlt : l ≤ t) :
    progressPercent l t = 100 ↔ 199 * t ≤ 200 * l := by
  unfold progressPercent
  constructor
  · intro h
    have h100 := (Nat.le_div_iff_mul_le (by omega : 0 < 2 * t)).1 h.ge
    omega
  · intro h
    have hlow : 100 ≤ (200 * l + t) / (2 * t) :=
      (Nat.le_div_iff_mul_le (by omega : 0 < 2 * t)).2 (by omega)
    have hhigh : (200 * l + t) / (2 * t) < 101 :=
      (Nat.div_lt_iff_lt_mul (by omega : 0 < 2 * t)).2 (by omega)
    omega

/-- C2 counterexample: with `loaded = 999`, `total = 1000` the callback
receives `round(99.9) = 100` although the payload is not fully sent, so the
reported value reaches 100 strictly before `bytesSent = totalBytes`. -/
theorem progress_full_only_counterexample :
    progressCallbacks [⟨true, 999, 1000⟩] = [100] ∧ 999 < 1000 := by
  constructor
  · decide
  · decide

/-- C2 amended: over events sharing a positive reported `total` with
`loaded ≤ total` and non-decreasing `loaded`, each callback invocation
receives exactly `Math.round(loaded/total*100)` (proved against rational
rounding); the callback sequence is monotonically non-decreasing; a fully
sent payload reports exactly 100; the value 100 is reported exactly when
`200*loaded ≥ 199*total` — i.e. from 99.5% sent onward, which can happen
strictly before the payload is fully sent; and no callback fires for an
event without a computable length. -/
theorem progress_reporting_spec (T : Nat) (hT : 0 < T)
    (evs : List ProgressEvent)
    (hall : ∀ e ∈ evs, e.total = T ∧ e.loaded ≤ T)
    (hmono : (evs.map (fun e => e.loaded)).Pairwise (· ≤ ·)) :
    (∀ e ∈ evs, e.lengthComputable = true →
      (progressPercent e.loaded e.total : ℤ) =
        round ((e.loaded : ℚ) / (e.total : ℚ) * 100)) ∧
    (progressCallbacks evs).Pairwise (· ≤ ·) ∧
    (∀ e ∈ evs, e.lengthComputable = true →
      (progressPercent e.loaded e.total = 100 ↔ 199 * T ≤ 200 * e.loaded)) ∧
    (∀ e ∈ evs, e.lengthComputable = true → e.loaded = T →
      progressPercent e.loaded e.total = 100) ∧
    ((∀ e ∈ evs, e.lengthComputable = false) → progressCallbacks evs = []) := by
  refine ⟨?_, ?_, ?_, ?_, ?_⟩
  · intro e he _
    exact progressPercent_eq_round e.loaded e.total
      (by rw [(hall e he).1]; exact hT)
  · have hp : evs.Pairwise (fun a b => a.loaded ≤ b.loaded) :=
      List.pairwise_map.1 hmono
    have hp2 : evs.Pairwise (fun a b =>
        progressPercent a.loaded a.total ≤ progressPercent b.loaded b.total) := by
      refine hp.imp_of_mem ?_
      intro a b ha hb hab
      rw [(hall a ha).1, (hall b hb).1]
      exact progressPercent_mono hab
    exact List.pairwise_map.2
      (hp2.sublist (List.filter_sublist evs))
  · intro e he _
    rw [(hall e he).1]
    exact progressPercent_eq_100_iff hT (hall e he).2
  · intro e he _ hfull
    rw [(hall e he).1]
    have hle : e.loaded ≤ T := (hall e he).2
    exact (progressPercent_eq_100_iff hT hle).2 (by omega)
  · intro hnone
    have : evs.filter (fun e => e.lengthComputable) = [] :=
      List.filter_eq_nil_iff.2 (fun e he => by simp [hnone e he])
    simp [progressCallbacks, this]

/-- Witness for C2 (amended) at a concrete fully-sent event: the callback
value is 100. -/
theorem progress_reporting_spec_witness :
    progressPercent 1000 1000 = 100 :=
  (progress_reporting_spec 1000 (by decide) [⟨true, 1000, 1000⟩]
    (by intro e he; simp at he; simp [he])
    (by simp)).2.2.2.1 ⟨true, 1000, 1000⟩ (by simp) rfl rfl

end VlibeStorage
